import Mathlib
namespace Ifdtool

/-!
Verification of the descriptor codec and layout-mutation engine of
`util/ifdtool/ifdtool.c` (Intel Flash Descriptor tool).

The embedding follows the C source closely:

* machine integers are modelled as `Nat` (for the `uint32_t` registers,
  with explicit `% 2 ^ 32` where overflow can occur) and as `Int` (for the
  signed `int` fields of `region_t`);
* flash images are byte buffers modelled as functions `Int → Nat`
  (pointer arithmetic in the C source happens on `char *`);
* functions that can call `exit(EXIT_FAILURE)` return `Except IfdError _`
  or `Option _`;
* the constants of the missing header `ifdtool.h` (SPI frequency
  encodings, region counts, master shift amounts) are modelled from the
  specification, as noted on each constant.
-/

/-- Fatal error kinds of the tool (each corresponds to an
`exit(EXIT_FAILURE)` site in `ifdtool.c`).  `LoopForever` models the one
place where the C code does not exit but spins forever (see
`next_pow2`). -/
inductive IfdError where
  | DescriptorNotFound
  | UnrecognizedDescriptorVersion
  | InvalidRegionIndex
  | MalformedLayoutLine
  | OverlappingRegions
  | RegionDisabled
  | ContentTooLarge
  | OutputTooSmall
  | LoopForever
  deriving DecidableEq, Repr

/-- Descriptor version, `IFD_VERSION_1` / `IFD_VERSION_2` in the source. -/
inductive IFDVersion where
  | V1
  | V2
  deriving DecidableEq, Repr

/-- Modelled from the spec: V2 supports up to 9 regions
(`MAX_REGIONS` in the missing header `ifdtool.h`). -/
def MAX_REGIONS : Nat := 9

/-- Modelled from the spec: V1 supports at most 5 addressable regions
(`MAX_REGIONS_OLD` in the missing header `ifdtool.h`). -/
def MAX_REGIONS_OLD : Nat := 5

/-- Region count selected by `check_ifd_version` for each version. -/
def region_count : IFDVersion → Nat
  | .V1 => MAX_REGIONS_OLD
  | .V2 => MAX_REGIONS

/-- Modelled from the spec: the fixed 20 MHz encoding of the SPI
read-clock-frequency sub-field (`SPI_FREQUENCY_20MHZ` in `ifdtool.h`). -/
def SPI_FREQUENCY_20MHZ : Nat := 0

/-- Modelled from the spec: the fixed 17 MHz encoding of the SPI
read-clock-frequency sub-field (`SPI_FREQUENCY_17MHZ` in `ifdtool.h`). -/
def SPI_FREQUENCY_17MHZ : Nat := 6

/-- Modelled from the spec (and from the comment at the `unlock_descriptor`
V2 branch: read bits are 19:8): `FLMSTR_RD_SHIFT_V2` is 8. -/
def FLMSTR_RD_SHIFT_V2 : Nat := 8

/-- Modelled from the spec (write bits are 31:20 on V2):
`FLMSTR_WR_SHIFT_V2` is 20. -/
def FLMSTR_WR_SHIFT_V2 : Nat := 20

/-- Modelled from the spec (V1 unlock writes `0xffff0000`, i.e. read bits
start at bit 16): `FLMSTR_RD_SHIFT_V1` is 16. -/
def FLMSTR_RD_SHIFT_V1 : Nat := 16

/-- Modelled from the spec: `FLMSTR_WR_SHIFT_V1` is 24. -/
def FLMSTR_WR_SHIFT_V1 : Nat := 24

/-- `region_t` of the source: `int base, limit, size` (signed). -/
structure region_t where
  base : Int
  limit : Int
  size : Int
  deriving DecidableEq, Repr

/-- `frba_t`: the region section, nine packed 32-bit region registers.
The struct itself lives in the missing header; its fields `flreg0` ..
`flreg8` are taken from their uses in `ifdtool.c`. -/
structure frba_t where
  flreg0 : Nat
  flreg1 : Nat
  flreg2 : Nat
  flreg3 : Nat
  flreg4 : Nat
  flreg5 : Nat
  flreg6 : Nat
  flreg7 : Nat
  flreg8 : Nat
  deriving DecidableEq, Repr

/-- `fmba_t`: the master section.  Fields `flmstr1` .. `flmstr5` are taken
from their uses in `ifdtool.c` (`flmstr4` is never touched there). -/
structure fmba_t where
  flmstr1 : Nat
  flmstr2 : Nat
  flmstr3 : Nat
  flmstr4 : Nat
  flmstr5 : Nat
  deriving DecidableEq, Repr

/-- `regions_collide` from `ifdtool.c`:

    if ((r1.size == 0) || (r2.size == 0)) return 0;
    if ( ((r1.base >= r2.base) && (r1.base <= r2.limit)) ||
         ((r1.limit >= r2.base) && (r1.limit <= r2.limit)) ) return 1;
    return 0;
-/
def regions_collide (r1 r2 : region_t) : Bool :=
  if r1.size = 0 ∨ r2.size = 0 then
    false
  else if (r1.base ≥ r2.base ∧ r1.base ≤ r2.limit) ∨
      (r1.limit ≥ r2.base ∧ r1.limit ≤ r2.limit) then
    true
  else
    false

/-- `next_pow2`'s while loop, `while (y <= x) y = y << 1;` on `unsigned
int`, hence the `% 2 ^ 32`.  The loop does not terminate for
`x ≥ 2 ^ 31` (`y` wraps to `0`), which the fuel models: 64 iterations are
more than any terminating run needs, so `none` means divergence. -/
def next_pow2_loop : Nat → Nat → Nat → Option Nat
  | 0, _, _ => none
  | fuel + 1, y, x => if y ≤ x then next_pow2_loop fuel ((y <<< 1) % 2 ^ 32) x else some y

/-- `next_pow2` from `ifdtool.c`: `0` for `x == 0`, otherwise the loop
above starting from `y = 1`. -/
def next_pow2 (x : Nat) : Option Nat :=
  if x = 0 then some 0 else next_pow2_loop 64 1 x

/-! ## Region codec: `get_region` / `set_region` -/

/-- Register selection of `get_region`'s switch: `flreg0` .. `flreg8` for
indices 0..8, fatal otherwise.  (An if-chain mirroring the C switch.) -/
def flreg_sel (frba : frba_t) (region_type : Nat) : Option Nat :=
  if region_type = 0 then some frba.flreg0
  else if region_type = 1 then some frba.flreg1
  else if region_type = 2 then some frba.flreg2
  else if region_type = 3 then some frba.flreg3
  else if region_type = 4 then some frba.flreg4
  else if region_type = 5 then some frba.flreg5
  else if region_type = 6 then some frba.flreg6
  else if region_type = 7 then some frba.flreg7
  else if region_type = 8 then some frba.flreg8
  else none

/-- Version-dependent base mask of `get_region`
(`ifd_version >= IFD_VERSION_2 ? 0x7fff : 0xfff`). -/
def base_mask (v : IFDVersion) : Nat :=
  if v = .V2 then 0x7fff else 0xfff

/-- Decoding of one packed region register (`get_region` after register
selection): base and limit masked and shifted, `limit |= 0xfff`, size
clamped at 0 when negative. -/
def decode_region_reg (v : IFDVersion) (flreg : Nat) : region_t :=
  let bm := base_mask v
  let lm := bm <<< 16
  let base : Int := ((flreg &&& bm) <<< 12 : Nat)
  let limit : Int := (((flreg &&& lm) >>> 4) ||| 0xfff : Nat)
  let size : Int := limit - base + 1
  { base := base, limit := limit, size := if size < 0 then 0 else size }

/-- `get_region` from `ifdtool.c`: selects the register, then decodes it.
The switch accepts indices 0..8 for both versions; only indices outside
the switch hit the fatal default branch. -/
def get_region (v : IFDVersion) (frba : frba_t) (region_type : Nat) :
    Except IfdError region_t :=
  match flreg_sel frba region_type with
  | some flreg => .ok (decode_region_reg v flreg)
  | none => .error .InvalidRegionIndex

/-- Packing of one region into a register: the assignment of `set_region`,
which is the same expression for each of `flreg0` .. `flreg4`.  The C
shifts of the signed `base`/`limit` are only well defined for nonnegative
values, which `Int.toNat` models. -/
def encode_region_reg (region : region_t) : Nat :=
  (((region.limit.toNat >>> 12) &&& 0x7fff) <<< 16) |||
    ((region.base.toNat >>> 12) &&& 0x7fff)

/-- `set_region` from `ifdtool.c`: only indices 0..4 can be written; any
other index takes the fatal default branch. -/
def set_region (frba : frba_t) (region_type : Nat) (region : region_t) :
    Except IfdError frba_t :=
  if region_type = 0 then .ok { frba with flreg0 := encode_region_reg region }
  else if region_type = 1 then .ok { frba with flreg1 := encode_region_reg region }
  else if region_type = 2 then .ok { frba with flreg2 := encode_region_reg region }
  else if region_type = 3 then .ok { frba with flreg3 := encode_region_reg region }
  else if region_type = 4 then .ok { frba with flreg4 := encode_region_reg region }
  else .error .InvalidRegionIndex

/-- A V1 region register is valid when its reserved bits (15:12 and 31:28)
are clear: only the twelve base bits and the twelve limit bits may be
set. -/
def flregValidV1 (f : Nat) : Prop :=
  f &&& 0x0fff0fff = f

instance (f : Nat) : Decidable (flregValidV1 f) := by
  unfold flregValidV1
  infer_instance

/-! ## Access-control codec: `lock_descriptor` / `unlock_descriptor` -/

/-- `lock_descriptor` restricted to its effect on the master section (the
surrounding find/`write_image` plumbing is handled in the run functions):
V2 keeps the reserved low byte of each master word and clears the rest,
V1 zeroes the words (with the fixed requester ID `0x118` in `flmstr3`);
then the fixed permission matrix is ORed in with version shifts. -/
def lock_descriptor (v : IFDVersion) (fmba : fmba_t) : fmba_t :=
  let rd_shift := if v = .V2 then FLMSTR_RD_SHIFT_V2 else FLMSTR_RD_SHIFT_V1
  let wr_shift := if v = .V2 then FLMSTR_WR_SHIFT_V2 else FLMSTR_WR_SHIFT_V1
  let f1 := if v = .V2 then fmba.flmstr1 &&& 0xff else 0
  let f2 := if v = .V2 then fmba.flmstr2 &&& 0xff else 0
  let f3 := if v = .V2 then fmba.flmstr3 &&& 0xff else 0x118
  { fmba with
    flmstr1 := f1 ||| (0xb <<< rd_shift) ||| (0xa <<< wr_shift)
    flmstr2 := f2 ||| (0xd <<< rd_shift) ||| (0xc <<< wr_shift)
    flmstr3 := f3 ||| (0x8 <<< rd_shift) ||| (0x8 <<< wr_shift) }

/-- `unlock_descriptor` restricted to its effect on the master section:
V2 sets bits 31:8 of each master word and keeps the reserved low byte,
V1 writes fixed all-enabled words. -/
def unlock_descriptor (v : IFDVersion) (fmba : fmba_t) : fmba_t :=
  if v = .V2 then
    { fmba with
      flmstr1 := 0xffffff00 ||| (fmba.flmstr1 &&& 0xff)
      flmstr2 := 0xffffff00 ||| (fmba.flmstr2 &&& 0xff)
      flmstr3 := 0xffffff00 ||| (fmba.flmstr3 &&& 0xff) }
  else
    { fmba with
      flmstr1 := 0xffff0000
      flmstr2 := 0xffff0000
      flmstr3 := 0x08080118 }

/-! ## Byte buffers, signature locator and version detector -/

/-- Little-endian 32-bit read, `*(uint32_t *)(image + i)` on x86. -/
def read32 (image : Int → Nat) (i : Int) : Nat :=
  image i % 256 + (image (i + 1) % 256) * 256 +
    (image (i + 2) % 256) * 65536 + (image (i + 3) % 256) * 16777216

/-- Little-endian 32-bit write into a byte buffer. -/
def write32 (image : Int → Nat) (pos : Int) (v : Nat) : Int → Nat :=
  fun a =>
    if a = pos then v % 256
    else if a = pos + 1 then (v >>> 8) % 256
    else if a = pos + 2 then (v >>> 16) % 256
    else if a = pos + 3 then (v >>> 24) % 256
    else image a

/-- `memset(image + pos, val, n)`. -/
def memset (image : Int → Nat) (pos : Int) (val : Nat) (n : Int) :
    Int → Nat :=
  fun a => if pos ≤ a ∧ a < pos + n then val else image a

/-- `memcpy(dst + dpos, src + spos, n)` between two distinct buffers. -/
def memcpy (dst : Int → Nat) (dpos : Int) (src : Int → Nat) (spos : Int)
    (n : Int) : Int → Nat :=
  fun a => if dpos ≤ a ∧ a < dpos + n then src (spos + (a - dpos)) else dst a

/-- Reading a whole region file into the buffer at `pos`
(`read(region_fd, image + pos, n)`). -/
def memcpy_list (dst : Int → Nat) (pos : Int) (content : List Nat) :
    Int → Nat :=
  fun a =>
    if pos ≤ a ∧ a < pos + (content.length : Int) then
      content.getD (a - pos).toNat 0
    else dst a

/-- The descriptor signature `0x0FF0A55A`. -/
def FD_SIGNATURE : Nat := 0x0FF0A55A

/-- `find_fd` from `ifdtool.c`: scan offsets `i = 0, 4, 8, ...` with
`i < size - 4` for the signature; the first matching offset, or `none`
(`DescriptorNotFound`).  `(size - 1) / 4` counts exactly the candidate
strides of the C loop. -/
def find_fd (image : Int → Nat) (size : Int) : Option Int :=
  ((List.range ((size - 1) / 4).toNat).find?
      (fun k => read32 image (4 * (k : Int)) == FD_SIGNATURE)).map
    (fun k => 4 * (k : Int))

/-- Read-clock-frequency sub-field used by `check_ifd_version`: bits 19:17
of `flcomp`, the first word of the component section at
`image + ((flmap0 & 0xff) << 4)`. -/
def read_freq_of (image : Int → Nat) (fd : Int) : Nat :=
  (read32 image ((((read32 image (fd + 4)) &&& 0xff) <<< 4 : Nat) : Int)
    >>> 17) &&& 7

/-- `check_ifd_version` from `ifdtool.c`: locate the descriptor, read the
read-clock-frequency sub-field and classify the version, fixing the
region count. -/
def check_ifd_version (image : Int → Nat) (size : Int) :
    Except IfdError (IFDVersion × Nat) :=
  match find_fd image size with
  | none => .error .DescriptorNotFound
  | some fd =>
    if read_freq_of image fd = SPI_FREQUENCY_20MHZ then
      .ok (.V1, MAX_REGIONS_OLD)
    else if read_freq_of image fd = SPI_FREQUENCY_17MHZ then
      .ok (.V2, MAX_REGIONS)
    else
      .error .UnrecognizedDescriptorVersion

/-- Image used by the version-detector witness: descriptor signature at
offset 0, component section at `0x100`, `flcomp = 0` (frequency field 0,
the 20 MHz encoding). -/
def version_demo_image : Int → Nat := fun a =>
  if a = 0 then 0x5A else if a = 1 then 0xA5 else if a = 2 then 0xF0
  else if a = 3 then 0x0F else if a = 4 then 0x10 else 0

/-! ## Region injection -/

/-- Offset of the region section: `(frba_t *)(image + ((flmap0 >> 16) &
0xff) << 4)` with `flmap0` read from the located descriptor header. -/
def frba_off_of (image : Int → Nat) (fd : Int) : Int :=
  ((((read32 image (fd + 4)) >>> 16) &&& 0xff) <<< 4 : Nat)

/-- Reading the nine region registers at the region-section offset. -/
def read_frba (image : Int → Nat) (off : Int) : frba_t :=
  ⟨read32 image off, read32 image (off + 4), read32 image (off + 8),
   read32 image (off + 12), read32 image (off + 16), read32 image (off + 20),
   read32 image (off + 24), read32 image (off + 28), read32 image (off + 32)⟩

/-- `inject_region` from `ifdtool.c`, with the file write modelled as an
event list: errors abort with no event, success appends the single
`write_image` call.  The region file's bytes are passed as `content`
(its `open`/`fstat` I/O is outside the model).  The calls to
`region_name` inside the error messages are dropped (they only affect
which fatal exit is taken for out-of-range indices, never whether one is
taken). -/
def inject_region_run (v : IFDVersion) (image : Int → Nat) (size : Int)
    (region_type : Nat) (content : List Nat) :
    Except IfdError Unit × List ((Int → Nat) × Int) :=
  match find_fd image size with
  | none => (.error .DescriptorNotFound, [])
  | some fd =>
    let frba := read_frba image (frba_off_of image fd)
    match get_region v frba region_type with
    | .error e => (.error e, [])
    | .ok region =>
      if region.size ≤ 0xfff then (.error .RegionDisabled, [])
      else
        let region_size : Int := content.length
        if region_size > region.size ∨
            (region_type ≠ 1 ∧ region_size > region.size) then
          (.error .ContentTooLarge, [])
        else
          let offset : Int :=
            if region_type = 1 ∧ region_size < region.size then
              region.size - region_size
            else 0
          let image1 :=
            if region_type = 1 ∧ region_size < region.size then
              memset image region.base 0xff offset
            else image
          if size < region.base + offset + region_size then
            (.error .OutputTooSmall, [])
          else
            (.ok (), [(memcpy_list image1 (region.base + offset) content, size)])

/-- Image used by the injection witness: signature at 0, region section at
`0x100`, `flreg1 = 0x00010001` (BIOS region `0x1000 - 0x1fff`, 4096
bytes). -/
def inject_demo_image : Int → Nat := fun a =>
  if a = 0 then 0x5A else if a = 1 then 0xA5 else if a = 2 then 0xF0
  else if a = 3 then 0x0F else if a = 6 then 0x10
  else if a = 0x104 then 0x01 else if a = 0x106 then 0x01 else 0

/-! ## Layout parsing and the mutation engine -/

/-- The canonical region identity table (`region_names` in `ifdtool.c`):
long name and short name per index. -/
def region_names : List (String × String) :=
  [("Flash Descriptor", "fd"), ("BIOS", "bios"), ("Intel ME", "me"),
   ("GbE", "gbe"), ("Platform Data", "pd"), ("Reserved", "res1"),
   ("Reserved", "res2"), ("Reserved", "res3"), ("EC", "ec")]

/-- `region_num`: case-insensitive lookup of a region index by long or
short name over the first `max_regions` entries; `none` for unknown names
(the C function returns `-1`). -/
def region_num (mr : Nat) (name : String) : Option Nat :=
  (List.range mr).find? fun i =>
    match region_names.get? i with
    | some p => name.toLower == p.1.toLower || name.toLower == p.2.toLower
    | none => false

/-- `strtok(tempstr, ":")` token stream: the nonempty components between
colons. -/
def strtok_colon (s : String) : List String :=
  (s.splitOn ":").filter (fun t => t ≠ "")

/-- Value of one hexadecimal digit. -/
def hexVal (c : Char) : Option Nat :=
  if '0' ≤ c ∧ c ≤ '9' then some (c.toNat - '0'.toNat)
  else if 'a' ≤ c ∧ c ≤ 'f' then some (c.toNat - 'a'.toNat + 10)
  else if 'A' ≤ c ∧ c ≤ 'F' then some (c.toNat - 'A'.toNat + 10)
  else none

/-- Accumulator loop of `strtol(s, NULL, 16)`: consume leading hex
digits. -/
def strtol16_loop : List Char → Nat → Nat
  | [], acc => acc
  | c :: rest, acc =>
    match hexVal c with
    | some d => strtol16_loop rest (acc * 16 + d)
    | none => acc

/-- `strtol(s, NULL, 16)` on a layout token (the layout files the tool
writes and reads carry plain hex numbers; sign, whitespace and `0x`
prefixes are not modelled). -/
def strtol16 (s : String) : Int :=
  strtol16_loop s.data 0

/-- One iteration of `new_layout`'s parse loop: look up the region name
(unknown names are silently skipped), split the range token on `:` (a
missing half is fatal), parse base and limit, recompute the clamped
size. -/
def apply_layout_line (mr : Nat) (ns : List region_t)
    (line : String × String) : Except IfdError (List region_t) :=
  match region_num mr line.2 with
  | none => .ok ns
  | some rn =>
    let toks := strtok_colon line.1
    match toks.get? 0, toks.get? 1 with
    | some t1, some t2 =>
      let base := strtol16 t1
      let limit := strtol16 t2
      let size := limit - base + 1
      .ok (ns.set rn ⟨base, limit, if size < 0 then 0 else size⟩)
    | _, _ => .error .MalformedLayoutLine

/-- The whole parse loop over the `fscanf` token-pair stream. -/
def apply_layout_lines (mr : Nat) (ns : List region_t)
    (lines : List (String × String)) : Except IfdError (List region_t) :=
  lines.foldlM (apply_layout_line mr) ns

/-- Pairwise collision check of `new_layout` (the `j = i + 1 ..` inner
loop; the outer loop skips zero-size regions before it). -/
def any_regions_collide (mr : Nat) (ns : List region_t) : Bool :=
  (List.range mr).any fun i =>
    decide ((ns.getD i ⟨0, 0, 0⟩).size ≠ 0) &&
      (List.range mr).any fun j =>
        decide (i < j) && regions_collide (ns.getD i ⟨0, 0, 0⟩) (ns.getD j ⟨0, 0, 0⟩)

/-- Maximum limit over the nonzero-size regions: the value of
`new_extent` before the power-of-two rounding (the accumulator starts
at 0). -/
def max_extent (mr : Nat) (ns : List region_t) : Int :=
  (List.range mr).foldl
    (fun e i =>
      let r := ns.getD i ⟨0, 0, 0⟩
      if r.size = 0 then e else if e < r.limit then r.limit else e) 0

/-- One iteration of `new_layout`'s copy loop: tail-anchored copy of
region `i` from the old image into the new buffer (`copy_size` starts as
the new size; growth copies from the end, shrinkage copies to the end). -/
def copy_step (image : Int → Nat) (cur new_rs : Nat → region_t)
    (buf : Int → Nat) (i : Nat) : Int → Nat :=
  let c := cur i
  let n := new_rs i
  if n.size = 0 then buf
  else
    let copy_size := if n.size > c.size then c.size else n.size
    let offset_new := if n.size > c.size then n.size - c.size else 0
    let offset_current := if n.size < c.size then c.size - n.size else 0
    memcpy buf (n.base + offset_new) image (c.base + offset_current) copy_size

/-- The copy loop of `new_layout`: a fresh buffer of `0xFF` bytes, then
every region copied in index order. -/
def copy_regions (image : Int → Nat) (cur new_rs : Nat → region_t)
    (mr : Nat) : Int → Nat :=
  (List.range mr).foldl (copy_step image cur new_rs) (fun _ => 0xff)

/-- The re-encode loop of `new_layout`:
`for (i = 1; i < max_regions; i++) set_region(frba, i, new_regions[i])`. -/
def set_region_loop (frba : frba_t) (ns : Nat → region_t) (mr : Nat) :
    Except IfdError frba_t :=
  (List.range' 1 (mr - 1)).foldlM (fun fr i => set_region fr i (ns i)) frba

/-- Register write-back into the new buffer: the successful iterations of
the re-encode loop write `flreg1` .. `flreg4` through the region-section
pointer (the loop aborts at index 5, so higher registers are never
written on any path that completes). -/
def write_frba_regs (buf : Int → Nat) (off : Int) (fr : frba_t) :
    Int → Nat :=
  write32 (write32 (write32 (write32 buf (off + 4) fr.flreg1)
    (off + 8) fr.flreg2) (off + 12) fr.flreg3) (off + 16) fr.flreg4

/-- `new_layout` from `ifdtool.c`, with the final `write_image` modelled
as an event: every fatal exit returns its error with no event.  Inputs:
the detected version (fixing `max_regions`), the current image and size,
and the layout file as the token-pair stream its `fscanf` loop produces.
`LoopForever` models the infinite loop inside `next_pow2` when
`new_extent - 1` underflows (every new region empty). -/
def new_layout_run (v : IFDVersion) (image : Int → Nat) (size : Int)
    (layout : List (String × String)) :
    Except IfdError Unit × List ((Int → Nat) × Int) :=
  let mr := region_count v
  match find_fd image size with
  | none => (.error .DescriptorNotFound, [])
  | some fd =>
    let frba := read_frba image (frba_off_of image fd)
    match (List.range mr).mapM (fun i => get_region v frba i) with
    | .error e => (.error e, [])
    | .ok currents =>
      match apply_layout_lines mr currents layout with
      | .error e => (.error e, [])
      | .ok news =>
        if any_regions_collide mr news then (.error .OverlappingRegions, [])
        else
          match next_pow2 (((max_extent mr news - 1) % (2 ^ 32 : Int)).toNat) with
          | none => (.error .LoopForever, [])
          | some new_extent =>
            let curF := fun i => currents.getD i ⟨0, 0, 0⟩
            let newF := fun i => news.getD i ⟨0, 0, 0⟩
            let new_image := copy_regions image curF newF mr
            match find_fd new_image (new_extent : Int) with
            | none => (.error .DescriptorNotFound, [])
            | some fd2 =>
              let off2 := frba_off_of new_image fd2
              match set_region_loop (read_frba new_image off2) newF mr with
              | .error e => (.error e, [])
              | .ok frba3 =>
                (.ok (), [(write_frba_regs new_image off2 frba3,
                  (new_extent : Int))])

/-- Current-region table of the C4 witness: the BIOS region sits at
`0x1000 - 0x1fff`; everything else is disabled. -/
def c4_cur : Nat → region_t := fun i =>
  if i = 1 then ⟨0x1000, 0x1fff, 0x1000⟩ else ⟨0, 0, 0⟩

/-- New-region table of the C4 witness: the BIOS region grows to
`0x2000 - 0x3fff`. -/
def c4_new : Nat → region_t := fun i =>
  if i = 1 then ⟨0x2000, 0x3fff, 0x2000⟩ else ⟨0, 0, 0⟩

/-! ## Theorems -/

/-- C1 counterexample: `regions_collide` is not symmetric.  A region whose
range strictly contains the other's does not collide with it, while the
contained one does collide with the container. -/
theorem regions_collide_not_symmetric :
    regions_collide ⟨0, 0x2fff, 0x3000⟩ ⟨0x1000, 0x1fff, 0x1000⟩ = false ∧
    regions_collide ⟨0x1000, 0x1fff, 0x1000⟩ ⟨0, 0x2fff, 0x3000⟩ = true := by
  decide

/-- C1 (amended): a region of size 0 never collides with anything, and
`regions_collide` is symmetric for well-formed regions (nonzero size
implies `base ≤ limit`) provided neither region's `[base, limit]` range
strictly contains the other's. -/
theorem regions_collide_zero_and_cond_symm :
    (∀ r1 r2 : region_t, r1.size = 0 ∨ r2.size = 0 →
      regions_collide r1 r2 = false) ∧
    (∀ r1 r2 : region_t,
      (r1.size ≠ 0 → r1.base ≤ r1.limit) →
      (r2.size ≠ 0 → r2.base ≤ r2.limit) →
      ¬(r1.base < r2.base ∧ r2.limit < r1.limit) →
      ¬(r2.base < r1.base ∧ r1.limit < r2.limit) →
      regions_collide r1 r2 = regions_collide r2 r1) := by
  constructor
  · intro r1 r2 h
    rcases h with h | h <;> simp [regions_collide, h]
  · intro r1 r2 hw1 hw2 hc1 hc2
    simp only [regions_collide]
    split_ifs <;> first | rfl | omega

/-- C1 witness: the conditional symmetry applied to two concrete adjacent
(non-colliding) regions. -/
theorem regions_collide_cond_symm_witness :
    regions_collide ⟨0, 0xfff, 0x1000⟩ ⟨0x1000, 0x1fff, 0x1000⟩ =
      regions_collide ⟨0x1000, 0x1fff, 0x1000⟩ ⟨0, 0xfff, 0x1000⟩ :=
  regions_collide_zero_and_cond_symm.2 _ _ (by decide) (by decide)
    (by decide) (by decide)

lemma next_pow2_loop_exit (j x : Nat) (hx : 0 < x) (hxj : x < 2 ^ j)
    (hinv : 2 ^ j ≤ 2 * x) : (2 : Nat) ^ j = 2 ^ (Nat.log2 x + 1) := by
  have hj : j ≠ 0 := by
    intro h0
    subst h0
    norm_num at hxj
    omega
  obtain ⟨j', rfl⟩ : ∃ j', j = j' + 1 := ⟨j - 1, by omega⟩
  have hp : (2 : Nat) ^ (j' + 1) = 2 * 2 ^ j' := by rw [pow_succ]; ring
  have hlow : 2 ^ j' ≤ x := by omega
  have hlog : Nat.log2 x = j' := by
    rw [Nat.log2_eq_log_two]
    exact Nat.log_eq_of_pow_le_of_lt_pow hlow hxj
  rw [hlog]

lemma next_pow2_loop_spec (fuel : Nat) : ∀ (j x : Nat), 0 < x → x < 2 ^ 31 →
    x < 2 ^ (j + fuel) → 2 ^ j ≤ 2 * x →
    next_pow2_loop (fuel + 1) (2 ^ j) x = some (2 ^ (Nat.log2 x + 1)) := by
  induction fuel with
  | zero =>
    intro j x hx _ hbound hinv
    have hxj : x < 2 ^ j := by simpa using hbound
    rw [next_pow2_loop, if_neg (by omega)]
    exact congrArg some (next_pow2_loop_exit j x hx hxj hinv)
  | succ fuel ih =>
    intro j x hx hx31 hbound hinv
    rw [next_pow2_loop]
    by_cases hle : 2 ^ j ≤ x
    · rw [if_pos hle]
      have hp : (2 : Nat) ^ (j + 1) = 2 * 2 ^ j := by rw [pow_succ]; ring
      have h32 : (2 : Nat) ^ 32 = 2 * 2 ^ 31 := by norm_num
      have hlt32 : 2 ^ j <<< 1 < 2 ^ 32 := by
        rw [Nat.shiftLeft_eq, pow_one]
        omega
      have hshift : (2 ^ j <<< 1) % 2 ^ 32 = 2 ^ (j + 1) := by
        rw [Nat.mod_eq_of_lt hlt32, Nat.shiftLeft_eq, pow_one, ← pow_succ]
      rw [hshift]
      exact ih (j + 1) x hx hx31
        (by rw [show j + 1 + fuel = j + (fuel + 1) from by omega]; exact hbound)
        (by rw [hp]; omega)
    · rw [if_neg hle]
      push_neg at hle
      exact congrArg some (next_pow2_loop_exit j x hx hle hinv)

/-- C3 (amended): `next_pow2 0 = 0`, `next_pow2 0xFFFFFF = 0x1000000`, and
for every `0 < x < 2 ^ 31` the function returns the least power of two
strictly greater than `x`.  (For `x ≥ 2 ^ 31` the loop never terminates;
see `next_pow2_diverges`.) -/
theorem next_pow2_correct :
    next_pow2 0 = some 0 ∧
    next_pow2 0xFFFFFF = some 0x1000000 ∧
    ∀ x : Nat, 0 < x → x < 2 ^ 31 →
      next_pow2 x = some (2 ^ (Nat.log2 x + 1)) ∧
      x < 2 ^ (Nat.log2 x + 1) ∧
      (∀ k, x < 2 ^ k → 2 ^ (Nat.log2 x + 1) ≤ 2 ^ k) := by
  have main : ∀ x : Nat, 0 < x → x < 2 ^ 31 →
      next_pow2 x = some (2 ^ (Nat.log2 x + 1)) ∧
      x < 2 ^ (Nat.log2 x + 1) ∧
      (∀ k, x < 2 ^ k → 2 ^ (Nat.log2 x + 1) ≤ 2 ^ k) := by
    intro x hx hx31
    have hrun : next_pow2 x = some (2 ^ (Nat.log2 x + 1)) := by
      rw [next_pow2, if_neg (by omega)]
      have h63 : x < 2 ^ (0 + 63) :=
        lt_of_lt_of_le hx31 (Nat.pow_le_pow_right (by norm_num) (by norm_num))
      have := next_pow2_loop_spec 63 0 x hx hx31 h63 (by norm_num; omega)
      simpa using this
    refine ⟨hrun, Nat.lt_log2_self, ?_⟩
    intro k hk
    have hself : 2 ^ Nat.log2 x ≤ x := Nat.log2_self_le (by omega)
    have : Nat.log2 x < k := by
      have h2 : 2 ^ Nat.log2 x < 2 ^ k := lt_of_le_of_lt hself hk
      exact (Nat.pow_lt_pow_iff_right (by norm_num)).mp h2
    exact Nat.pow_le_pow_right (by norm_num) (by omega)
  refine ⟨rfl, ?_, main⟩
  have h := (main 0xFFFFFF (by norm_num) (by norm_num)).1
  have hl : Nat.log2 0xFFFFFF = 23 := by
    rw [Nat.log2_eq_log_two]
    exact Nat.log_eq_of_pow_le_of_lt_pow (by norm_num) (by norm_num)
  rw [h, hl]
  norm_num

/-- C3 counterexample: at `x = 2 ^ 31` the loop never returns (`y`
overflows to 0 and the guard `y <= x` stays true), so `next_pow2` does not
return the least power of two greater than `x`. -/
theorem next_pow2_diverges : next_pow2 (2 ^ 31) = none := by decide

/-- C3 witness: the amended correctness statement at `x = 5`. -/
theorem next_pow2_correct_witness : next_pow2 5 = some 8 := by
  have h := (next_pow2_correct.2.2 5 (by norm_num) (by norm_num)).1
  have hl : Nat.log2 5 = 2 := by
    rw [Nat.log2_eq_log_two]
    exact Nat.log_eq_of_pow_le_of_lt_pow (by norm_num) (by norm_num)
  rw [h, hl]
  norm_num

lemma land_shiftRight (a b k : Nat) :
    (a &&& b) >>> k = (a >>> k) &&& (b >>> k) := by
  apply Nat.eq_of_testBit_eq
  intro i
  simp

lemma lor_shiftRight (a b k : Nat) :
    (a ||| b) >>> k = (a >>> k) ||| (b >>> k) := by
  apply Nat.eq_of_testBit_eq
  intro i
  simp

lemma shiftLeft_land_shiftRight (f m k : Nat) :
    ((f >>> k) &&& m) <<< k = f &&& (m <<< k) := by
  apply Nat.eq_of_testBit_eq
  intro i
  simp only [Nat.testBit_shiftLeft, Nat.testBit_and, Nat.testBit_shiftRight]
  by_cases h : k ≤ i
  · simp [h, Nat.add_sub_cancel' h]
  · simp [h]

/-- Core bit identity behind the C2 round trip: re-encoding a decoded V1
register keeps exactly the twelve base bits and the twelve limit bits. -/
lemma encode_decode_v1 (f : Nat) :
    encode_region_reg (decode_region_reg .V1 f) = f &&& 0x0fff0fff := by
  have hbm : base_mask .V1 = 0xfff := rfl
  simp only [decode_region_reg, encode_region_reg, hbm]
  simp
  rw [lor_shiftRight, ← Nat.shiftRight_add, land_shiftRight]
  have h412 : 4 + 12 = 16 := rfl
  have e1 : (268369920 : Nat) >>> 16 = 4095 := by decide
  have e2 : (4095 : Nat) >>> 12 = 0 := by decide
  have e3 : (4095 : Nat) &&& 32767 = 4095 := by decide
  have e4 : (4095 : Nat) <<< 16 ||| 4095 = 268374015 := by decide
  rw [h412, e1, e2, Nat.or_zero]
  simp only [Nat.and_assoc, e3]
  rw [shiftLeft_land_shiftRight, ← Nat.and_or_distrib_left, e4]

/-- C2: on a valid V1 image, decoding a region register with `get_region`
and re-encoding the resulting region with `set_region` writes back a value
bit-for-bit identical to the original register, for every index 0..4. -/
theorem get_set_region_roundtrip_v1 (frba : frba_t) (t f : Nat)
    (ht : t < 5) (hsel : flreg_sel frba t = some f)
    (hvalid : flregValidV1 f) :
    (get_region .V1 frba t).bind (fun r => set_region frba t r) =
      .ok frba := by
  unfold flregValidV1 at hvalid
  interval_cases t <;>
    (simp [flreg_sel] at hsel; subst hsel;
     simp [get_region, set_region, flreg_sel, Except.bind, encode_decode_v1,
       hvalid])

/-- C2 witness: the round trip on a concrete valid register in slot 1. -/
theorem get_set_region_roundtrip_v1_witness :
    (get_region .V1 ⟨9, 0x0aaa0bbb, 2, 3, 4, 5, 6, 7, 8⟩ 1).bind
        (fun r => set_region ⟨9, 0x0aaa0bbb, 2, 3, 4, 5, 6, 7, 8⟩ 1 r) =
      .ok ⟨9, 0x0aaa0bbb, 2, 3, 4, 5, 6, 7, 8⟩ :=
  get_set_region_roundtrip_v1 _ 1 0x0aaa0bbb (by norm_num) rfl (by decide)

/-- C7 counterexample: on a V1 image (five active regions) `get_region`
does not fail at index 5; the switch accepts every index 0..8 regardless
of the version. -/
theorem get_region_index5_ok_on_v1 :
    (get_region .V1 ⟨0, 0, 0, 0, 0, 0x00010001, 0, 0, 0⟩ 5).isOk = true := by
  decide

/-- C7 (amended): `get_region` fails with `InvalidRegionIndex` exactly for
indices at least 9 (`MAX_REGIONS`), independent of the active version; for
every index 0..8 it returns a region, even beyond the version's region
count. -/
theorem get_region_invalid_iff (v : IFDVersion) (frba : frba_t) (t : Nat) :
    (get_region v frba t = .error .InvalidRegionIndex ↔ 9 ≤ t) ∧
    (t < 9 → (get_region v frba t).isOk = true) := by
  constructor
  · constructor
    · intro h
      by_contra hlt
      push_neg at hlt
      interval_cases t <;> simp [get_region, flreg_sel] at h
    · intro h9
      have hsel : flreg_sel frba t = none := by
        simp only [flreg_sel]
        split_ifs <;> first | omega | rfl
      simp [get_region, hsel]
  · intro h9
    interval_cases t <;>
      simp [get_region, flreg_sel, Except.isOk, Except.toBool]

/-- C7 witness: index 8 decodes fine on V2. -/
theorem get_region_invalid_iff_witness :
    (get_region .V2 ⟨0, 0, 0, 0, 0, 0, 0, 0, 0⟩ 8).isOk = true :=
  (get_region_invalid_iff .V2 ⟨0, 0, 0, 0, 0, 0, 0, 0, 0⟩ 8).2 (by norm_num)

lemma lor_land_distrib (a b m : Nat) :
    (a ||| b) &&& m = (a &&& m) ||| (b &&& m) := by
  apply Nat.eq_of_testBit_eq
  intro i
  simp only [Nat.testBit_or, Nat.testBit_and]
  cases a.testBit i <;> cases b.testBit i <;> cases m.testBit i <;> rfl

lemma unlock_low (x : Nat) :
    (0xffffff00 ||| (x &&& 0xff)) &&& 0xff = x &&& 0xff := by
  rw [lor_land_distrib]
  have e0 : (0xffffff00 : Nat) &&& 0xff = 0 := by decide
  have eff : (0xff : Nat) &&& 0xff = 0xff := by decide
  rw [e0, Nat.zero_or, Nat.and_assoc, eff]

lemma lock_low (m r w : Nat) (hr : r &&& 0xff = 0) (hw : w &&& 0xff = 0) :
    ((m &&& 0xff) ||| r ||| w) &&& 0xff = m &&& 0xff := by
  rw [lor_land_distrib, lor_land_distrib, hr, hw, Nat.or_zero, Nat.or_zero,
    Nat.and_assoc]
  have eff : (0xff : Nat) &&& 0xff = 0xff := by decide
  rw [eff]

/-- Exact effect of the V2 lock-then-unlock sequence: every touched master
word ends as `0xffffff00` OR its original low byte. -/
lemma lock_unlock_v2_spec (fmba : fmba_t) :
    unlock_descriptor .V2 (lock_descriptor .V2 fmba) =
      { fmba with
        flmstr1 := 0xffffff00 ||| (fmba.flmstr1 &&& 0xff)
        flmstr2 := 0xffffff00 ||| (fmba.flmstr2 &&& 0xff)
        flmstr3 := 0xffffff00 ||| (fmba.flmstr3 &&& 0xff) } := by
  simp only [lock_descriptor, unlock_descriptor, FLMSTR_RD_SHIFT_V2,
    FLMSTR_WR_SHIFT_V2]
  simp only [reduceIte]
  congr 1 <;> rw [lock_low _ _ _ (by decide) (by decide)]

lemma unlock_word_bits (m : Nat) :
    ((0xffffff00 ||| (m &&& 0xff)) >>> 8) &&& 0xfff = 0xfff ∧
    ((0xffffff00 ||| (m &&& 0xff)) >>> 20) &&& 0xfff = 0xfff ∧
    (0xffffff00 ||| (m &&& 0xff)) &&& 0xff = m &&& 0xff := by
  have hlt : m &&& 0xff < 2 ^ 8 :=
    lt_of_le_of_lt Nat.and_le_right (by norm_num)
  refine ⟨?_, ?_, unlock_low m⟩
  · rw [lor_shiftRight, lor_land_distrib]
    have h2 : (m &&& 0xff) >>> 8 = 0 := by
      rw [Nat.shiftRight_eq_div_pow]
      exact Nat.div_eq_of_lt hlt
    have h1 : ((0xffffff00 : Nat) >>> 8) &&& 0xfff = 0xfff := by decide
    have h3 : (0 : Nat) &&& 0xfff = 0 := by decide
    rw [h2, h3, Nat.or_zero, h1]
  · rw [lor_shiftRight, lor_land_distrib]
    have h2 : (m &&& 0xff) >>> 20 = 0 := by
      rw [Nat.shiftRight_eq_div_pow]
      exact Nat.div_eq_of_lt (lt_of_lt_of_le hlt (by norm_num))
    have h1 : ((0xffffff00 : Nat) >>> 20) &&& 0xfff = 0xfff := by decide
    have h3 : (0 : Nat) &&& 0xfff = 0 := by decide
    rw [h2, h3, Nat.or_zero, h1]

/-- C9 counterexample: no starting state loses its reserved low byte under
the V2 lock-then-unlock sequence, refuting the claim's existential part:
the V2 lock keeps the low byte instead of writing a fixed pattern. -/
theorem no_state_loses_low_byte_in_lock_unlock_v2 :
    ¬ ∃ fmba : fmba_t,
      ((unlock_descriptor .V2 (lock_descriptor .V2 fmba)).flmstr1 &&& 0xff ≠
        fmba.flmstr1 &&& 0xff ∨
       (unlock_descriptor .V2 (lock_descriptor .V2 fmba)).flmstr2 &&& 0xff ≠
        fmba.flmstr2 &&& 0xff ∨
       (unlock_descriptor .V2 (lock_descriptor .V2 fmba)).flmstr3 &&& 0xff ≠
        fmba.flmstr3 &&& 0xff) := by
  rintro ⟨fmba, h⟩
  rw [lock_unlock_v2_spec] at h
  rcases h with h | h | h <;> exact h (unlock_low _)

/-- C9 (amended): on a V2 image, lock then unlock leaves each of the three
master words touched by these operations (host, ME, GbE) with all read
bits 19:8 and all write bits 31:20 set, and the reserved low byte of each
word is always preserved (restored) by the sequence. -/
theorem lock_unlock_v2_rw_bits_and_low_byte (fmba : fmba_t) :
    (((unlock_descriptor .V2 (lock_descriptor .V2 fmba)).flmstr1 >>> 8)
        &&& 0xfff = 0xfff ∧
      ((unlock_descriptor .V2 (lock_descriptor .V2 fmba)).flmstr1 >>> 20)
        &&& 0xfff = 0xfff ∧
      (unlock_descriptor .V2 (lock_descriptor .V2 fmba)).flmstr1 &&& 0xff =
        fmba.flmstr1 &&& 0xff) ∧
    (((unlock_descriptor .V2 (lock_descriptor .V2 fmba)).flmstr2 >>> 8)
        &&& 0xfff = 0xfff ∧
      ((unlock_descriptor .V2 (lock_descriptor .V2 fmba)).flmstr2 >>> 20)
        &&& 0xfff = 0xfff ∧
      (unlock_descriptor .V2 (lock_descriptor .V2 fmba)).flmstr2 &&& 0xff =
        fmba.flmstr2 &&& 0xff) ∧
    (((unlock_descriptor .V2 (lock_descriptor .V2 fmba)).flmstr3 >>> 8)
        &&& 0xfff = 0xfff ∧
      ((unlock_descriptor .V2 (lock_descriptor .V2 fmba)).flmstr3 >>> 20)
        &&& 0xfff = 0xfff ∧
      (unlock_descriptor .V2 (lock_descriptor .V2 fmba)).flmstr3 &&& 0xff =
        fmba.flmstr3 &&& 0xff) := by
  rw [lock_unlock_v2_spec]
  exact ⟨unlock_word_bits fmba.flmstr1, unlock_word_bits fmba.flmstr2,
    unlock_word_bits fmba.flmstr3⟩

/-- C6: once the descriptor is located, `check_ifd_version` maps the
frequency sub-field (bits 19:17 of `flcomp`): the 20 MHz encoding gives
V1 with 5 regions, the 17 MHz encoding gives V2 with 9 regions, and any
other value fails with `UnrecognizedDescriptorVersion`. -/
theorem check_ifd_version_mapping (image : Int → Nat) (size fd : Int)
    (hfd : find_fd image size = some fd) :
    (read_freq_of image fd = SPI_FREQUENCY_20MHZ →
      check_ifd_version image size = .ok (.V1, 5)) ∧
    (read_freq_of image fd = SPI_FREQUENCY_17MHZ →
      check_ifd_version image size = .ok (.V2, 9)) ∧
    (read_freq_of image fd ≠ SPI_FREQUENCY_20MHZ →
      read_freq_of image fd ≠ SPI_FREQUENCY_17MHZ →
      check_ifd_version image size = .error .UnrecognizedDescriptorVersion) := by
  have hcv : check_ifd_version image size =
      if read_freq_of image fd = SPI_FREQUENCY_20MHZ then
        .ok (.V1, MAX_REGIONS_OLD)
      else if read_freq_of image fd = SPI_FREQUENCY_17MHZ then
        .ok (.V2, MAX_REGIONS)
      else .error .UnrecognizedDescriptorVersion := by
    unfold check_ifd_version
    rw [hfd]
  refine ⟨fun h => ?_, fun h => ?_, fun h1 h2 => ?_⟩
  · rw [hcv, if_pos h]
    rfl
  · have h20 : read_freq_of image fd ≠ SPI_FREQUENCY_20MHZ := by
      rw [h]
      decide
    rw [hcv, if_neg h20, if_pos h]
    rfl
  · rw [hcv, if_neg h1, if_neg h2]

/-- C6 witness: the mapping theorem applied to the concrete image above. -/
theorem check_ifd_version_mapping_witness :
    find_fd version_demo_image 8 = some 0 ∧
    check_ifd_version version_demo_image 8 = .ok (.V1, 5) :=
  ⟨by decide,
   (check_ifd_version_mapping version_demo_image 8 0 (by decide)).1 (by decide)⟩

/-- A region decoded with positive size satisfies
`size = limit - base + 1` (the clamp did not fire). -/
lemma get_region_size_eq (v : IFDVersion) (frba : frba_t) (t : Nat)
    (r : region_t) (h : get_region v frba t = .ok r) (hpos : 0 < r.size) :
    r.size = r.limit - r.base + 1 := by
  unfold get_region at h
  cases hsel : flreg_sel frba t with
  | none =>
    rw [hsel] at h
    exact absurd h (by simp)
  | some f =>
    rw [hsel] at h
    have hr : decode_region_reg v f = r := by
      injection h
    subst hr
    simp only [decode_region_reg] at hpos ⊢
    split_ifs at hpos ⊢ <;> omega

/-- C8: injecting a content buffer strictly smaller than the BIOS region
(index 1) succeeds, writes `region.size - content.length` bytes of `0xFF`
at `region.base`, then the content, which therefore ends exactly at the
region's limit; the resulting image is passed to the single `write_image`
call. -/
theorem inject_region_bios_pads_front (v : IFDVersion) (image : Int → Nat)
    (size : Int) (content : List Nat) (fd : Int) (r : region_t)
    (hfd : find_fd image size = some fd)
    (hreg : get_region v (read_frba image (frba_off_of image fd)) 1 = .ok r)
    (hdis : (0xfff : Int) < r.size)
    (hlen : (content.length : Int) < r.size)
    (hsz : r.base + (r.size - (content.length : Int)) +
      (content.length : Int) ≤ size) :
    (inject_region_run v image size 1 content).fst = .ok () ∧
    ∃ img, (inject_region_run v image size 1 content).snd = [(img, size)] ∧
      (∀ k : Int, 0 ≤ k → k < r.size - (content.length : Int) →
        img (r.base + k) = 0xff) ∧
      (∀ j : Int, 0 ≤ j → j < (content.length : Int) →
        img (r.base + (r.size - (content.length : Int)) + j) =
          content.getD j.toNat 0) ∧
      r.base + (r.size - (content.length : Int)) +
        (content.length : Int) - 1 = r.limit := by
  have hrun : inject_region_run v image size 1 content =
      (.ok (), [(memcpy_list
          (memset image r.base 0xff (r.size - (content.length : Int)))
          (r.base + (r.size - (content.length : Int))) content, size)]) := by
    simp only [inject_region_run, hfd, hreg]
    rw [if_neg (by omega : ¬ r.size ≤ 0xfff)]
    rw [if_neg (fun h => h.elim (fun hgt => by omega) (fun hand => hand.1 rfl))]
    simp only [true_and]
    rw [if_pos hlen, if_pos hlen]
    rw [if_neg (by omega : ¬ size < r.base +
      (r.size - (content.length : Int)) + (content.length : Int))]
  refine ⟨by rw [hrun], memcpy_list
      (memset image r.base 0xff (r.size - (content.length : Int)))
      (r.base + (r.size - (content.length : Int))) content,
    by rw [hrun], ?_, ?_, ?_⟩
  · intro k hk0 hklt
    simp only [memcpy_list, memset]
    rw [if_neg (by omega), if_pos (by omega)]
  · intro j hj0 hjlt
    simp only [memcpy_list]
    rw [if_pos (by omega)]
    have harith : r.base + (r.size - (content.length : Int)) + j -
        (r.base + (r.size - (content.length : Int))) = j := by ring
    rw [harith]
  · have hs := get_region_size_eq v _ 1 r hreg (by omega)
    omega

set_option maxRecDepth 100000 in
/-- C8 witness: injecting a 3000-byte file into the 4096-byte BIOS region
of the concrete image succeeds. -/
theorem inject_region_bios_pads_front_witness :
    find_fd inject_demo_image 0x2000 = some 0 ∧
    (inject_region_run .V1 inject_demo_image 0x2000 1
      (List.replicate 3000 0xAB)).fst = .ok () :=
  ⟨by decide,
   (inject_region_bios_pads_front .V1 inject_demo_image 0x2000
      (List.replicate 3000 0xAB) 0 ⟨0x1000, 0x1fff, 0x1000⟩
      (by decide) (by rfl) (by decide)
      (by simp) (by simp)).1⟩

lemma set_region_loop_nine (frba : frba_t) (ns : Nat → region_t) :
    set_region_loop frba ns 9 = .error .InvalidRegionIndex := rfl

/-- C5: with nine active regions (V2), the re-encode loop of `new_layout`
always dies at index 5 inside `set_region`, and consequently no invocation
of `new_layout` on a V2 image ever reaches the final `write_image`. -/
theorem new_layout_v2_never_completes :
    (∀ (frba : frba_t) (ns : Nat → region_t),
      set_region_loop frba ns 9 = .error .InvalidRegionIndex) ∧
    (∀ (image : Int → Nat) (size : Int) (layout : List (String × String)),
      (new_layout_run .V2 image size layout).fst.isOk = false) := by
  refine ⟨set_region_loop_nine, ?_⟩
  intro image size layout
  unfold new_layout_run
  simp only [region_count, MAX_REGIONS]
  split
  · rfl
  · split
    · rfl
    · split
      · rfl
      · split
        · rfl
        · split
          · rfl
          · split
            · rfl
            · split
              · rfl
              · rename_i frba3 heq
                rw [set_region_loop_nine] at heq
                cases heq

lemma inject_region_run_write_discipline (v : IFDVersion)
    (image : Int → Nat) (size : Int) (t : Nat) (content : List Nat) :
    (inject_region_run v image size t content).fst.isOk = true ∨
    (inject_region_run v image size t content).snd = [] := by
  suffices h : ∀ p, inject_region_run v image size t content = p →
      p.fst.isOk = true ∨ p.snd = [] from h _ rfl
  intro p h
  unfold inject_region_run at h
  simp only [] at h
  split at h
  · subst h
    exact Or.inr rfl
  · split at h
    · subst h
      exact Or.inr rfl
    · split at h
      · subst h
        exact Or.inr rfl
      · split at h
        · subst h
          exact Or.inr rfl
        · split at h
          · split at h
            · subst h
              exact Or.inr rfl
            · subst h
              exact Or.inl rfl
          · split at h
            · subst h
              exact Or.inr rfl
            · subst h
              exact Or.inl rfl

lemma new_layout_run_write_discipline (v : IFDVersion) (image : Int → Nat)
    (size : Int) (layout : List (String × String)) :
    (new_layout_run v image size layout).fst.isOk = true ∨
    (new_layout_run v image size layout).snd = [] := by
  suffices h : ∀ p, new_layout_run v image size layout = p →
      p.fst.isOk = true ∨ p.snd = [] from h _ rfl
  intro p h
  unfold new_layout_run at h
  simp only [] at h
  split at h
  · subst h
    exact Or.inr rfl
  · split at h
    · subst h
      exact Or.inr rfl
    · split at h
      · subst h
        exact Or.inr rfl
      · split at h
        · subst h
          exact Or.inr rfl
        · split at h
          · subst h
            exact Or.inr rfl
          · split at h
            · subst h
              exact Or.inr rfl
            · split at h
              · subst h
                exact Or.inr rfl
              · subst h
                exact Or.inl rfl

/-- C10: whenever the injection operation or the layout mutation
operation ends in any fatal error, the event list is empty — the single
`write_image` call is reached only on success, so no output image file is
ever written on a failing run. -/
theorem fatal_error_writes_no_image :
    (∀ (v : IFDVersion) (image : Int → Nat) (size : Int) (t : Nat)
        (content : List Nat),
      (inject_region_run v image size t content).fst.isOk = false →
      (inject_region_run v image size t content).snd = []) ∧
    (∀ (v : IFDVersion) (image : Int → Nat) (size : Int)
        (layout : List (String × String)),
      (new_layout_run v image size layout).fst.isOk = false →
      (new_layout_run v image size layout).snd = []) := by
  constructor
  · intro v image size t content h
    rcases inject_region_run_write_discipline v image size t content with
      hok | hnil
    · rw [h] at hok
      cases hok
    · exact hnil
  · intro v image size layout h
    rcases new_layout_run_write_discipline v image size layout with hok | hnil
    · rw [h] at hok
      cases hok
    · exact hnil

lemma copy_step_outside (image : Int → Nat) (cur new_rs : Nat → region_t)
    (buf : Int → Nat) (i : Nat) (a : Int)
    (h : a < (new_rs i).base ∨ (new_rs i).base + (new_rs i).size ≤ a) :
    copy_step image cur new_rs buf i a = buf a := by
  simp only [copy_step, memcpy, ite_apply]
  split_ifs <;> first | rfl | (exfalso; omega)

lemma foldl_copy_outside (image : Int → Nat) (cur new_rs : Nat → region_t)
    (a : Int) : ∀ (L : List Nat) (buf : Int → Nat),
    (∀ j ∈ L, a < (new_rs j).base ∨ (new_rs j).base + (new_rs j).size ≤ a) →
    L.foldl (copy_step image cur new_rs) buf a = buf a := by
  intro L
  induction L with
  | nil =>
    intro buf _
    rfl
  | cons x xs ih =>
    intro buf h
    rw [List.foldl_cons,
      ih (copy_step image cur new_rs buf x)
        (fun j hj => h j (List.mem_cons_of_mem _ hj))]
    exact copy_step_outside image cur new_rs buf x a (h x (List.mem_cons_self _ _))

/-- Pointwise value of one growing copy step: the source region's bytes
land at `new.base + (new.size - cur.size)`, everything else in the buffer
is untouched. -/
lemma copy_step_grow_eval (image : Int → Nat) (cur new_rs : Nat → region_t)
    (buf : Int → Nat) (i : Nat)
    (hgrow : (cur i).size < (new_rs i).size) (hc : 0 ≤ (cur i).size)
    (a : Int) :
    copy_step image cur new_rs buf i a =
      if (new_rs i).base + ((new_rs i).size - (cur i).size) ≤ a ∧
          a < (new_rs i).base + (new_rs i).size then
        image ((cur i).base +
          (a - ((new_rs i).base + ((new_rs i).size - (cur i).size))))
      else buf a := by
  simp only [copy_step, memcpy, ite_apply]
  split_ifs <;> first | rfl | (exfalso; omega) | (congr 1; omega)

/-- C4: in the copy phase of the layout mutation engine, when a region's
new size exceeds its old size and the other active regions stay clear of
it, the old region's bytes are copied to `new.base + (new.size -
old.size)` and the front of the new region keeps the `0xFF` fill of the
fresh buffer. -/
theorem new_layout_grow_copies_tail (image : Int → Nat)
    (cur new_rs : Nat → region_t) (mr i0 : Nat) (hi0 : i0 < mr)
    (hothers : ∀ j, j < mr → j ≠ i0 →
      (new_rs j).size = 0 ∨
      (new_rs j).base + (new_rs j).size ≤ (new_rs i0).base ∨
      (new_rs i0).base + (new_rs i0).size ≤ (new_rs j).base)
    (hgrow : (cur i0).size < (new_rs i0).size)
    (hcur : 0 ≤ (cur i0).size) :
    (∀ a : Int, (new_rs i0).base ≤ a →
      a < (new_rs i0).base + ((new_rs i0).size - (cur i0).size) →
      copy_regions image cur new_rs mr a = 0xff) ∧
    (∀ k : Int, 0 ≤ k → k < (cur i0).size →
      copy_regions image cur new_rs mr
        ((new_rs i0).base + ((new_rs i0).size - (cur i0).size) + k) =
        image ((cur i0).base + k)) := by
  have h1 : i0 :: List.range' (i0 + 1) (mr - i0 - 1) =
      List.range' i0 (mr - i0) := by
    rw [show mr - i0 = (mr - i0 - 1) + 1 from by omega, List.range'_succ]
    simp
  have h2 := List.range'_append_1 0 i0 (mr - i0)
  rw [Nat.zero_add] at h2
  have hsplit2 : List.range mr =
      List.range' 0 i0 ++ i0 :: List.range' (i0 + 1) (mr - i0 - 1) := by
    rw [List.range_eq_range', h1, h2,
      show mr - i0 + i0 = mr from by omega]
  have houter : ∀ (buf : Int → Nat) (a : Int),
      (new_rs i0).base ≤ a → a < (new_rs i0).base + (new_rs i0).size →
      (List.range' (i0 + 1) (mr - i0 - 1)).foldl
        (copy_step image cur new_rs) buf a = buf a := by
    intro buf a hb1 hb2
    apply foldl_copy_outside
    intro j hj
    have hmem := List.mem_range'_1.mp hj
    have ho := hothers j (by omega) (by omega)
    omega
  have hpre : ∀ a : Int,
      (new_rs i0).base ≤ a → a < (new_rs i0).base + (new_rs i0).size →
      (List.range' 0 i0).foldl (copy_step image cur new_rs)
        (fun _ => 0xff) a = 0xff := by
    intro a hb1 hb2
    apply foldl_copy_outside
    intro j hj
    have hmem := List.mem_range'_1.mp hj
    have ho := hothers j (by omega) (by omega)
    omega
  constructor
  · intro a ha1 ha2
    have hrange : a < (new_rs i0).base + (new_rs i0).size := by omega
    unfold copy_regions
    rw [hsplit2, List.foldl_append, List.foldl_cons, houter _ a ha1 hrange,
      copy_step_grow_eval image cur new_rs _ i0 hgrow hcur a,
      if_neg (by omega)]
    exact hpre a ha1 hrange
  · intro k hk0 hklt
    have ha1 : (new_rs i0).base ≤
        (new_rs i0).base + ((new_rs i0).size - (cur i0).size) + k := by omega
    have hrange : (new_rs i0).base + ((new_rs i0).size - (cur i0).size) + k <
        (new_rs i0).base + (new_rs i0).size := by omega
    unfold copy_regions
    rw [hsplit2, List.foldl_append, List.foldl_cons, houter _ _ ha1 hrange,
      copy_step_grow_eval image cur new_rs _ i0 hgrow hcur _,
      if_pos (by constructor <;> omega)]
    congr 1
    omega

/-- C4 witness: growing the BIOS region from `0x1000 - 0x1fff` to
`0x2000 - 0x3fff` leaves `0x2800` (inside `0x2000 .. 0x2fff`) at `0xFF`
and places the first old byte at `0x3000`. -/
theorem new_layout_grow_copies_tail_witness :
    copy_regions (fun _ => 0x42) c4_cur c4_new 5 0x2800 = 0xff ∧
    copy_regions (fun _ => 0x42) c4_cur c4_new 5 0x3000 = 0x42 := by
  have h := new_layout_grow_copies_tail (fun _ => 0x42) c4_cur c4_new 5 1
    (by norm_num)
    (by
      intro j hj hne
      interval_cases j
      · exact Or.inl rfl
      · exact absurd rfl hne
      · exact Or.inl rfl
      · exact Or.inl rfl
      · exact Or.inl rfl)
    (by decide) (by decide)
  refine ⟨h.1 0x2800 (by decide) (by decide), ?_⟩
  have h2 := h.2 0 (le_refl 0) (by decide)
  simpa [c4_cur, c4_new] using h2

/-- C10 witness: a run on an image with no descriptor fails and writes
nothing. -/
theorem fatal_error_writes_no_image_witness :
    (inject_region_run .V1 (fun _ => 0) 0 0 []).fst.isOk = false ∧
    (inject_region_run .V1 (fun _ => 0) 0 0 []).snd = [] :=
  ⟨by decide,
   fatal_error_writes_no_image.1 .V1 (fun _ => 0) 0 0 [] (by decide)⟩

end Ifdtool
